import Mathlib

/-!
Verification development for the tinytcp TCP-server library.

The embedding models the byte-level codec helpers (reading.go, writing.go),
the two framing protocols and the packet-framing engine (writing.go), the
socket close path (Socket.Close) and the sockets-list admission path
(sockets_list.go).  Go bytes are natural numbers below 256, Go byte slices
are lists of naturals, and Go's signed 64-bit values are modelled either as
naturals (where the source provably never leaves the non-negative range)
or as integers obtained by reinterpreting the low 64 bits.  Fallible Go
code (slice expressions that can panic at runtime) is modelled with
`Option`: `none` stands for a panic.
-/

namespace Tinytcp

/-- Constant segmentBits = 0x7F from utils.go: the payload bits of one varint byte. -/
def segmentBits : Nat := 0x7F

/-- Constant continueBit = 0x80 from utils.go: the continuation flag of a varint byte. -/
def continueBit : Nat := 0x80

/-- WriteVarInt (writing.go): emit the value seven bits at a time, low septet
first, setting the continue bit on every byte except the last.  On the
non-negative values the claims quantify over, the Go loop test
`value & ^segmentBits == 0` is exactly `value < 128`, and `byte(value)` is
the identity on values below 256. -/
def WriteVarInt (value : Nat) : List Nat :=
  if h : value < 128 then
    [value]
  else
    ((value &&& segmentBits) ||| continueBit) :: WriteVarInt (value >>> 7)
termination_by value
decreasing_by
  simp only [Nat.shiftRight_eq_div_pow]
  exact Nat.div_lt_self (by omega) (by norm_num)

/-- WriteVarLong (writing.go): identical loop at int64 width; on non-negative
values the arithmetic coincides with WriteVarInt's. -/
def WriteVarLong (value : Nat) : List Nat :=
  if h : value < 128 then
    [value]
  else
    ((value &&& segmentBits) ||| continueBit) :: WriteVarLong (value >>> 7)
termination_by value
decreasing_by
  simp only [Nat.shiftRight_eq_div_pow]
  exact Nat.div_lt_self (by omega) (by norm_num)

/-- Errors surfaced by the standalone decoders in reading.go: an I/O error
from the underlying reader (here: running off the end of the modelled byte
stream), or the explicit "invalid size of VarInt"/"invalid size of VarLong"
error. -/
inductive VarIntReadError where
  | endOfInput
  | invalidSize
deriving DecidableEq

/-- The loop of ReadVarInt (reading.go).  The accumulator mirrors the Go
`int` value: shifts only ever happen at positions 0, 7, 14, 21 and 28
(the guard rejects position 35 before another byte is read), so the Go
64-bit accumulator never overflows and the natural-number accumulator is
exact. -/
def ReadVarIntLoop : List Nat → Nat → Nat → Except VarIntReadError Nat
  | [], _, _ => .error .endOfInput
  | currentByte :: rest, position, value =>
    let value2 := value ||| ((currentByte &&& segmentBits) <<< position)
    if currentByte &&& continueBit = 0 then
      .ok value2
    else if position + 7 ≥ 32 then
      .error .invalidSize
    else
      ReadVarIntLoop rest (position + 7) value2

/-- ReadVarInt (reading.go) over a modelled byte stream. -/
def ReadVarInt (stream : List Nat) : Except VarIntReadError Nat :=
  ReadVarIntLoop stream 0 0

/-- Reinterpret the low 64 bits of a natural number as a Go int64 value. -/
def toInt64 (v : Nat) : Int :=
  if v % 2 ^ 64 < 2 ^ 63 then ((v % 2 ^ 64 : Nat) : Int)
  else ((v % 2 ^ 64 : Nat) : Int) - 2 ^ 64

/-- The loop of ReadVarLong (reading.go).  Unlike the VarInt loop, a shift at
position 63 is reachable, where the Go int64 arithmetic wraps; the
accumulator therefore keeps the 64-bit pattern (each shifted septet is
reduced mod 2^64 exactly as the int64 shift does). -/
def ReadVarLongLoop : List Nat → Nat → Nat → Except VarIntReadError Nat
  | [], _, _ => .error .endOfInput
  | currentByte :: rest, position, value =>
    let value2 := value ||| (((currentByte &&& segmentBits) <<< position) % 2 ^ 64)
    if currentByte &&& continueBit = 0 then
      .ok value2
    else if position + 7 ≥ 64 then
      .error .invalidSize
    else
      ReadVarLongLoop rest (position + 7) value2

/-- ReadVarLong (reading.go): the returned Go int64 is the signed
reinterpretation of the accumulated 64-bit pattern. -/
def ReadVarLong (stream : List Nat) : Except VarIntReadError Int :=
  (ReadVarLongLoop stream 0 0).map toInt64

/-- The loop of readVarIntPacketSize (writing.go).  As in ReadVarIntLoop the
Go accumulator provably stays below 2^35, so naturals are exact; the final
`int64(value)` conversion is the natural-number cast. -/
def readVarIntPacketSizeLoop : List Nat → Nat → Nat → Nat → Nat × Int × Bool
  | [], _, _, _ => (0, 0, false)
  | currentByte :: rest, i, position, value =>
    let value2 := value ||| ((currentByte &&& segmentBits) <<< position)
    if currentByte &&& continueBit = 0 then
      (i + 1, (value2 : Int), true)
    else if position + 7 ≥ 32 then
      (0, 0, false)
    else
      readVarIntPacketSizeLoop rest (i + 1) (position + 7) value2

/-- readVarIntPacketSize (writing.go): returns the consumed byte count, the
decoded size as an int64, and whether a whole varint was read. -/
def readVarIntPacketSize (buffer : List Nat) : Nat × Int × Bool :=
  readVarIntPacketSizeLoop buffer 0 0 0

/-- The loop of readVarLongPacketSize (writing.go), with int64 wrap-around in
the accumulator modelled as in ReadVarLongLoop. -/
def readVarLongPacketSizeLoop : List Nat → Nat → Nat → Nat → Nat × Int × Bool
  | [], _, _, _ => (0, 0, false)
  | currentByte :: rest, i, position, value =>
    let value2 := value ||| (((currentByte &&& segmentBits) <<< position) % 2 ^ 64)
    if currentByte &&& continueBit = 0 then
      (i + 1, toInt64 value2, true)
    else if position + 7 ≥ 64 then
      (0, 0, false)
    else
      readVarLongPacketSizeLoop rest (i + 1) (position + 7) value2

/-- readVarLongPacketSize (writing.go). -/
def readVarLongPacketSize (buffer : List Nat) : Nat × Int × Bool :=
  readVarLongPacketSizeLoop buffer 0 0 0

/-- PrefixType (utils.go). -/
inductive PrefixType where
  | PrefixVarInt
  | PrefixVarLong
  | PrefixInt16_BE
  | PrefixInt16_LE
  | PrefixInt32_BE
  | PrefixInt32_LE
  | PrefixInt64_BE
  | PrefixInt64_LE
deriving DecidableEq

/-- PrefixType.Size (utils.go): byte width of the prefix, -1 for the
variable-width kinds. -/
def PrefixType.Size : PrefixType → Int
  | .PrefixVarInt | .PrefixVarLong => -1
  | .PrefixInt16_BE | .PrefixInt16_LE => 2
  | .PrefixInt32_BE | .PrefixInt32_LE => 4
  | .PrefixInt64_BE | .PrefixInt64_LE => 8

/-- The prefixLength field computed by the switch in LengthPrefixedFraming
(writing.go); the variable-width kinds leave it at its zero value. -/
def prefixLengthOf : PrefixType → Nat
  | .PrefixInt16_BE | .PrefixInt16_LE => 2
  | .PrefixInt32_BE | .PrefixInt32_LE => 4
  | .PrefixInt64_BE | .PrefixInt64_LE => 8
  | _ => 0

/-- binary.BigEndian.Uint16 on the first two bytes. -/
def beUint16 : List Nat → Nat
  | b0 :: b1 :: _ => (b0 <<< 8) ||| b1
  | _ => 0

/-- binary.LittleEndian.Uint16 on the first two bytes. -/
def leUint16 : List Nat → Nat
  | b0 :: b1 :: _ => b0 ||| (b1 <<< 8)
  | _ => 0

/-- binary.BigEndian.Uint32 on the first four bytes. -/
def beUint32 : List Nat → Nat
  | b0 :: b1 :: b2 :: b3 :: _ => (b0 <<< 24) ||| (b1 <<< 16) ||| (b2 <<< 8) ||| b3
  | _ => 0

/-- binary.LittleEndian.Uint32 on the first four bytes. -/
def leUint32 : List Nat → Nat
  | b0 :: b1 :: b2 :: b3 :: _ => b0 ||| (b1 <<< 8) ||| (b2 <<< 16) ||| (b3 <<< 24)
  | _ => 0

/-- binary.BigEndian.Uint64 on the first eight bytes. -/
def beUint64 : List Nat → Nat
  | b0 :: b1 :: b2 :: b3 :: b4 :: b5 :: b6 :: b7 :: _ =>
    (b0 <<< 56) ||| (b1 <<< 48) ||| (b2 <<< 40) ||| (b3 <<< 32) |||
    (b4 <<< 24) ||| (b5 <<< 16) ||| (b6 <<< 8) ||| b7
  | _ => 0

/-- binary.LittleEndian.Uint64 on the first eight bytes. -/
def leUint64 : List Nat → Nat
  | b0 :: b1 :: b2 :: b3 :: b4 :: b5 :: b6 :: b7 :: _ =>
    b0 ||| (b1 <<< 8) ||| (b2 <<< 16) ||| (b3 <<< 24) |||
    (b4 <<< 32) ||| (b5 <<< 40) ||| (b6 <<< 48) ||| (b7 <<< 56)
  | _ => 0

/-- The packetSize computed by the fixed-width cases of the switch in
lengthPrefixedFramingProtocol.ExtractPacket (writing.go): the Int16/Int32
kinds widen an unsigned decode to int64, the Int64 kinds reinterpret the
unsigned 64-bit decode as a signed int64. -/
def fixedPrefixValue : PrefixType → List Nat → Int
  | .PrefixInt16_BE, buffer => (beUint16 buffer : Int)
  | .PrefixInt16_LE, buffer => (leUint16 buffer : Int)
  | .PrefixInt32_BE, buffer => (beUint32 buffer : Int)
  | .PrefixInt32_LE, buffer => (leUint32 buffer : Int)
  | .PrefixInt64_BE, buffer => toInt64 (beUint64 buffer)
  | .PrefixInt64_LE, buffer => toInt64 (leUint64 buffer)
  | _, _ => 0

/-- The tail of lengthPrefixedFramingProtocol.ExtractPacket (writing.go):
compare the decoded packetSize against the bytes remaining after the
prefix, then slice.  The Go expression `buffer[:packetSize]` panics when
packetSize is negative; the panic is modelled by `none`.  All call sites
guarantee prefixLength ≤ len(buffer), so the natural-number subtraction in
the length comparison is exact. -/
def lengthPrefixedFinish (buffer : List Nat) (prefixLength : Nat) (packetSize : Int) :
    Option (List Nat × List Nat × Bool) :=
  if ((buffer.length - prefixLength : Nat) : Int) ≥ packetSize then
    if packetSize < 0 then
      none
    else
      some ((buffer.drop prefixLength).take packetSize.toNat,
            (buffer.drop prefixLength).drop packetSize.toNat, true)
  else
    some ([], buffer, false)

/-- lengthPrefixedFramingProtocol.ExtractPacket (writing.go): decode the
length prefix according to the prefix kind, then split off one packet when
enough bytes are buffered. -/
def lengthPrefixedExtractPacket (prefixType : PrefixType) (buffer : List Nat) :
    Option (List Nat × List Nat × Bool) :=
  if buffer.length ≥ prefixLengthOf prefixType then
    match prefixType with
    | .PrefixVarInt =>
      match readVarIntPacketSize buffer with
      | (pl, sz, true) => lengthPrefixedFinish buffer pl sz
      | (_, _, false) => some ([], buffer, false)
    | .PrefixVarLong =>
      match readVarLongPacketSize buffer with
      | (pl, sz, true) => lengthPrefixedFinish buffer pl sz
      | (_, _, false) => some ([], buffer, false)
    | t => lengthPrefixedFinish buffer (prefixLengthOf t) (fixedPrefixValue t buffer)
  else
    some ([], buffer, false)

/-- Go bytes.Index: position of the first occurrence of sep in the scanned
list, scanning from the left (stdlib semantics, consumed by bytes.Cut). -/
def bytesIndexOf (sep : List Nat) : List Nat → Option Nat
  | [] => if sep.isPrefixOf ([] : List Nat) then some 0 else none
  | b :: rest =>
    if sep.isPrefixOf (b :: rest) then some 0
    else (bytesIndexOf sep rest).map (· + 1)

/-- Go bytes.Cut(s, sep): at the first occurrence i of sep return
(s[:i], s[i+len(sep):], true); when sep does not occur return
(s, nil, false). -/
def bytesCut (s sep : List Nat) : List Nat × List Nat × Bool :=
  match bytesIndexOf sep s with
  | some i => (s.take i, s.drop (i + sep.length), true)
  | none => (s, [], false)

/-- separatorFramingProtocol.ExtractPacket (writing.go): delegate to
bytes.Cut with the configured separator. -/
def separatorExtractPacket (separator buffer : List Nat) : List Nat × List Nat × Bool :=
  bytesCut buffer separator

/-- The two FramingProtocol implementations of writing.go. -/
inductive FramingProtocol where
  | splitBySeparator (separator : List Nat)
  | lengthPrefixedFraming (prefixType : PrefixType)

/-- FramingProtocol.ExtractPacket dispatch.  The separator strategy never
panics; the length-prefixed strategy can (see lengthPrefixedFinish). -/
def FramingProtocol.extractPacket : FramingProtocol → List Nat → Option (List Nat × List Nat × Bool)
  | .splitBySeparator sep, buffer => some (separatorExtractPacket sep buffer)
  | .lengthPrefixedFraming t, buffer => lengthPrefixedExtractPacket t buffer

/-- PacketFramingConfig (writing.go), with Go int fields. -/
structure PacketFramingConfig where
  ReadBufferSize : Int
  MaxPacketSize : Int
  MinReadSpace : Int
deriving DecidableEq

/-- mergePacketFramingConfig (writing.go): start from the defaults
(4 KiB read buffer, 16 KiB packet cap, 1 KiB minimal read space), override
each field only when the provided value is strictly positive, then clamp
MinReadSpace to ReadBufferSize / 4 when it exceeds the read buffer. -/
def mergePacketFramingConfig (provided : Option PacketFramingConfig) : PacketFramingConfig :=
  let config : PacketFramingConfig :=
    { ReadBufferSize := 4 * 1024, MaxPacketSize := 16 * 1024, MinReadSpace := 1024 }
  match provided with
  | none => config
  | some p =>
    let c1 := if p.ReadBufferSize > 0 then { config with ReadBufferSize := p.ReadBufferSize } else config
    let c2 := if p.MaxPacketSize > 0 then { c1 with MaxPacketSize := p.MaxPacketSize } else c1
    let c3 := if p.MinReadSpace > 0 then { c2 with MinReadSpace := p.MinReadSpace } else c2
    if c3.MinReadSpace > c3.ReadBufferSize then
      { c3 with MinReadSpace := c3.ReadBufferSize / 4 }
    else
      c3

/-- The size-cap test of PacketFramingHandler (writing.go lines guarding the
discard): the cap applies iff MaxPacketSize is positive, and fires when the
in-flight byte count exceeds it. -/
def packetSizeExceeded (maxPacketSize memoryUsed : Int) : Bool :=
  maxPacketSize > 0 && memoryUsed > maxPacketSize

/-- Per-connection state of the PacketFramingHandler loop (writing.go):
the pooled fixed-size read buffer, the two offsets, the optional receive
(spill) buffer, and the packets handed to the packet handler so far. -/
structure EngineState where
  readBuffer : List Nat
  leftOffset : Nat
  rightOffset : Nat
  receiveBuffer : Option (List Nat)
  delivered : List (List Nat)
deriving DecidableEq

/-- One socket read landing in the fixed read buffer:
socket.Read(readBuffer[rightOffset:]) stores the fresh bytes at the read
offset and leaves the rest of the page untouched. -/
def writeChunk (buffer : List Nat) (offset : Nat) (chunk : List Nat) : List Nat :=
  buffer.take offset ++ chunk ++ buffer.drop (offset + chunk.length)

/-- The inner extraction loop of PacketFramingHandler (writing.go).  On an
extraction both offsets advance by len(packet) + excessBytes and the packet
is handed to the handler; on a stall the loop either resets (empty source),
spills to the receive buffer (no room for another comfortable read), or
keeps the fragment in place and advances the right offset by len(source).
The fuel argument only serves Lean's termination checker; every protocol
used below consumes at least one byte per extraction, so a fuel of
len(source) + 1 never runs out.  `none` propagates a protocol panic. -/
def drainLoop (protocol : FramingProtocol) (minReadSpace : Int) :
    Nat → List Nat → EngineState → Option EngineState
  | 0, _, _ => none
  | fuel + 1, source, st =>
    match protocol.extractPacket source with
    | none => none
    | some (packet, rest, true) =>
      let excessBytes := source.length - packet.length - rest.length
      drainLoop protocol minReadSpace fuel rest
        { st with
          leftOffset := st.leftOffset + (packet.length + excessBytes),
          rightOffset := st.rightOffset + (packet.length + excessBytes),
          delivered := st.delivered ++ [packet] }
    | some (_, _, false) =>
      if source.length = 0 then
        some { st with leftOffset := 0, rightOffset := 0 }
      else if (st.rightOffset + source.length : Int) > (st.readBuffer.length : Int) - minReadSpace then
        some { st with
               receiveBuffer := some (st.receiveBuffer.getD [] ++ source),
               leftOffset := 0, rightOffset := 0 }
      else
        some { st with rightOffset := st.rightOffset + source.length }

/-- One iteration of the read loop of PacketFramingHandler (writing.go) for a
successful socket read delivering `chunk` (a successful read always fits in
readBuffer[rightOffset:]).  The size cap is checked first; on a discard the
receive buffer is reset and both offsets are zeroed.  Otherwise the source
is assembled from readBuffer[leftOffset : rightOffset+bytesRead], prefixed
with the receive buffer when that is non-empty, and drained. -/
def engineIteration (config : PacketFramingConfig) (protocol : FramingProtocol)
    (st : EngineState) (chunk : List Nat) : Option EngineState :=
  let bytesRead := chunk.length
  let buffer2 := writeChunk st.readBuffer st.rightOffset chunk
  let spillLength : Nat := match st.receiveBuffer with | some b => b.length | none => 0
  let memoryUsed : Int := (st.rightOffset : Int) + bytesRead - st.leftOffset + spillLength
  if packetSizeExceeded config.MaxPacketSize memoryUsed then
    some { st with
           readBuffer := buffer2,
           receiveBuffer := st.receiveBuffer.map (fun _ => []),
           leftOffset := 0, rightOffset := 0 }
  else
    let source0 := (buffer2.drop st.leftOffset).take (st.rightOffset + bytesRead - st.leftOffset)
    let withSpill : List Nat × Option (List Nat) :=
      match st.receiveBuffer with
      | some b => if b.length > 0 then (b ++ source0, some []) else (source0, some b)
      | none => (source0, none)
    drainLoop protocol config.MinReadSpace (withSpill.1.length + 1) withSpill.1
      { st with readBuffer := buffer2, receiveBuffer := withSpill.2 }

/-- Run the PacketFramingHandler read loop over a schedule of successful
socket reads (the loop exits when the socket reports a closing error; the
schedule models everything read before that point). -/
def engineRunFrom (config : PacketFramingConfig) (protocol : FramingProtocol) :
    EngineState → List (List Nat) → Option EngineState
  | st, [] => some st
  | st, chunk :: rest =>
    match engineIteration config protocol st chunk with
    | none => none
    | some st2 => engineRunFrom config protocol st2 rest

/-- The state PacketFramingHandler starts a connection with: a zeroed page
of ReadBufferSize bytes from the pool, both offsets at zero, no receive
buffer yet, nothing delivered. -/
def initialEngineState (config : PacketFramingConfig) : EngineState :=
  { readBuffer := List.replicate config.ReadBufferSize.toNat 0,
    leftOffset := 0, rightOffset := 0, receiveBuffer := none, delivered := [] }

/-- The packets a connection handler receives for a given read schedule. -/
def engineDeliveredPackets (config : PacketFramingConfig) (protocol : FramingProtocol)
    (chunks : List (List Nat)) : Option (List (List Nat)) :=
  (engineRunFrom config protocol (initialEngineState config) chunks).map (·.delivered)

/-- CloseReason (utils.go). -/
inductive CloseReason where
  | CloseReasonServer
  | CloseReasonClient
deriving DecidableEq

/-- Observable close state of one Socket (sockets_list.go): the registered
close handlers (by identifier, in registration order), whether the
close-once guard has fired, how often the underlying connection was
closed, and the log of handler invocations with their reasons. -/
structure SocketModel where
  closeHandlers : List Nat
  closeOnceDone : Bool
  connCloseCount : Nat
  firedHandlers : List (Nat × CloseReason)
deriving DecidableEq

/-- Socket.Close (sockets_list.go): under the close-once guard, close the
underlying connection, pick the first variadic reason (CloseReasonServer
when absent), and run the close handlers from the last registered to the
first. -/
def socketClose (s : SocketModel) (reason : Option CloseReason) : SocketModel :=
  if s.closeOnceDone then
    s
  else
    { s with
      closeOnceDone := true,
      connCloseCount := s.connCloseCount + 1,
      firedHandlers := s.firedHandlers ++
        s.closeHandlers.reverse.map (fun h => (h, reason.getD .CloseReasonServer)) }

/-- A socket that has registered the given handlers (via OnClose, which
appends) and has not been closed yet. -/
def initialSocketModel (handlers : List Nat) : SocketModel :=
  { closeHandlers := handlers, closeOnceDone := false, connCloseCount := 0, firedHandlers := [] }

/-- Observable state of a socketsList (sockets_list.go): the sockets in list
order (head first, tail last), the size counter, and the configured
maximum size (a Go int; negative disables the limit). -/
structure SocketsListModel where
  sockets : List Nat
  size : Nat
  maxSize : Int
deriving DecidableEq

/-- socketsList.registerSocket (sockets_list.go): refuse when a non-negative
maxSize is reached; otherwise append at the tail (the head/tail pointer
cases both amount to appending to the list) and bump size. -/
def registerSocket (s : SocketsListModel) (socket : Nat) : SocketsListModel × Bool :=
  if s.maxSize ≥ 0 ∧ (s.size : Int) ≥ s.maxSize then
    (s, false)
  else
    ({ s with sockets := s.sockets ++ [socket], size := s.size + 1 }, true)

/-- Result of socketsList.New (sockets_list.go): the returned socket (nil
modelled as none), the list state afterwards, and whether the connection
was closed and the pooled Socket recycled. -/
structure NewSocketResult where
  returned : Option Nat
  state : SocketsListModel
  connectionClosed : Bool
  socketRecycled : Bool
deriving DecidableEq

/-- socketsList.New (sockets_list.go): take a pooled Socket, initialize it
with the connection, and try to register it; when registration is refused,
instantly close the connection, recycle the Socket and return nil. -/
def socketsListNew (s : SocketsListModel) (socket : Nat) : NewSocketResult :=
  match registerSocket s socket with
  | (s2, true) =>
    { returned := some socket, state := s2, connectionClosed := false, socketRecycled := false }
  | (s2, false) =>
    { returned := none, state := s2, connectionClosed := true, socketRecycled := true }

/-! Bit-level helper lemmas used to reason about the varint loops. -/

theorem and127_eq_mod (b : Nat) : b &&& 127 = b % 128 := by
  rw [show (127 : Nat) = 2 ^ 7 - 1 from by norm_num,
    show (128 : Nat) = 2 ^ 7 from by norm_num, Nat.and_pow_two_sub_one_eq_mod]

theorem and128_of_lt {b : Nat} (h : b < 128) : b &&& 128 = 0 := by
  rw [show (128 : Nat) = 2 ^ 7 from by norm_num, Nat.and_two_pow,
    Nat.testBit_lt_two_pow (by omega)]
  rfl

theorem add128_and128 {m : Nat} (h : m < 128) : (m + 128) &&& 128 = 128 := by
  have h7 : m < 2 ^ 7 := by omega
  have t : (m + 128).testBit 7 = true := by
    rw [show m + 128 = 2 ^ 7 * 1 + m from by omega, Nat.testBit_mul_pow_two_add 1 h7 7]
    norm_num
  have g : (m + 128) &&& 128 = ((m + 128).testBit 7).toNat * 2 ^ 7 := by
    rw [show (128 : Nat) = 2 ^ 7 from by norm_num]
    exact Nat.and_two_pow _ 7
  rw [g, t]
  norm_num

theorem lor128_of_lt {m : Nat} (h : m < 128) : m ||| 128 = m + 128 := by
  have e := Nat.mul_add_lt_is_or (show m < 2 ^ 7 by omega) 1
  norm_num at e
  rw [Nat.lor_comm, ← e]
  omega

theorem lor_shiftLeft_of_lt {a : Nat} (b k : Nat) (h : a < 2 ^ k) :
    a ||| (b <<< k) = 2 ^ k * b + a := by
  rw [Nat.shiftLeft_eq, Nat.lor_comm, Nat.mul_comm b (2 ^ k)]
  exact (Nat.mul_add_lt_is_or h b).symm

theorem shiftRight7_eq (n : Nat) : n >>> 7 = n / 128 := by
  rw [Nat.shiftRight_eq_div_pow]

theorem writeByteShape (n : Nat) : (n &&& segmentBits) ||| continueBit = n % 128 + 128 := by
  show (n &&& 127) ||| 128 = n % 128 + 128
  rw [and127_eq_mod]
  exact lor128_of_lt (Nat.mod_lt _ (by norm_num))

/-- Decoding the encoder's output from any loop state whose accumulator fits
below the current position: the standalone VarInt decoder loop. -/
theorem ReadVarIntLoop_WriteVarInt (n : Nat) :
    ∀ position value : Nat, value < 2 ^ position → n < 2 ^ (31 - position) →
    ReadVarIntLoop (WriteVarInt n) position value = .ok (2 ^ position * n + value) := by
  induction n using Nat.strong_induction_on with
  | _ n ih =>
    intro position value hv hn
    rw [WriteVarInt]
    by_cases h : n < 128
    · rw [dif_pos h]
      simp only [ReadVarIntLoop, segmentBits, continueBit]
      rw [and127_eq_mod, Nat.mod_eq_of_lt h, if_pos (and128_of_lt h),
        lor_shiftLeft_of_lt n position hv]
    · rw [dif_neg h, writeByteShape]
      have hm : n % 128 < 128 := Nat.mod_lt _ (by norm_num)
      have hpos : position + 7 < 31 := by
        have h1 : (2 : Nat) ^ 7 ≤ n := by omega
        have h2 : (2 : Nat) ^ 7 < 2 ^ (31 - position) := lt_of_le_of_lt h1 hn
        have h3 : 7 < 31 - position := by
          exact (Nat.pow_lt_pow_iff_right (by norm_num)).mp h2
        omega
      simp only [ReadVarIntLoop, segmentBits, continueBit]
      rw [and127_eq_mod, Nat.add_mod_right, Nat.mod_mod_of_dvd n (dvd_refl 128)]
      rw [if_neg (by rw [add128_and128 hm]; norm_num)]
      rw [if_neg (by omega : ¬ position + 7 ≥ 32)]
      rw [lor_shiftLeft_of_lt (n % 128) position hv]
      have hv2 : 2 ^ position * (n % 128) + value < 2 ^ (position + 7) := by
        calc 2 ^ position * (n % 128) + value
            < 2 ^ position * (n % 128) + 2 ^ position := by omega
          _ ≤ 2 ^ position * 127 + 2 ^ position := by
              exact Nat.add_le_add_right (Nat.mul_le_mul_left _ (by omega)) _
          _ = 2 ^ position * 128 := by ring
          _ = 2 ^ (position + 7) := by rw [Nat.pow_add]
      have hn2 : n >>> 7 < 2 ^ (31 - (position + 7)) := by
        rw [shiftRight7_eq]
        have e : (2 : Nat) ^ (31 - position) = 2 ^ (31 - (position + 7)) * 128 := by
          rw [show (128 : Nat) = 2 ^ 7 from by norm_num, ← Nat.pow_add]
          congr 1
          omega
        rw [Nat.div_lt_iff_lt_mul (by norm_num : (0 : Nat) < 128)]
        rw [← e]
        exact hn
      have hrec := ih (n >>> 7) (by rw [shiftRight7_eq]; exact Nat.div_lt_self (by omega) (by norm_num))
        (position + 7) (2 ^ position * (n % 128) + value) hv2 hn2
      rw [hrec]
      congr 1
      have dm := Nat.div_add_mod n 128
      rw [shiftRight7_eq]
      calc 2 ^ (position + 7) * (n / 128) + (2 ^ position * (n % 128) + value)
          = 2 ^ position * (128 * (n / 128) + n % 128) + value := by
            rw [Nat.pow_add]; ring
        _ = 2 ^ position * n + value := by rw [dm]

/-- Decoding the encoder's output from any loop state whose accumulator fits
below the current position: the standalone VarLong decoder loop.  The only
difference to the VarInt argument is discharging the int64 wrap-around
reduction, which never fires on encoder output below 2^63. -/
theorem ReadVarLongLoop_WriteVarLong (n : Nat) :
    ∀ position value : Nat, value < 2 ^ position → n < 2 ^ (63 - position) →
    ReadVarLongLoop (WriteVarLong n) position value = .ok (2 ^ position * n + value) := by
  induction n using Nat.strong_induction_on with
  | _ n ih =>
    intro position value hv hn
    rw [WriteVarLong]
    by_cases h : n < 128
    · rw [dif_pos h]
      have hlt : n * 2 ^ position < 2 ^ 64 := by
        rcases Nat.eq_zero_or_pos n with h0 | h0
        · subst h0; simpa using Nat.two_pow_pos 64
        · have hp : position ≤ 62 := by
            by_contra hc
            have e0 : 63 - position = 0 := by omega
            rw [e0] at hn
            omega
          calc n * 2 ^ position < 2 ^ (63 - position) * 2 ^ position :=
                mul_lt_mul_of_pos_right hn (Nat.two_pow_pos position)
            _ = 2 ^ 63 := by rw [← Nat.pow_add]; congr 1; omega
            _ < 2 ^ 64 := by norm_num
      simp only [ReadVarLongLoop, segmentBits, continueBit]
      rw [and127_eq_mod, Nat.mod_eq_of_lt h,
        Nat.mod_eq_of_lt (by rw [Nat.shiftLeft_eq]; exact hlt),
        if_pos (and128_of_lt h), lor_shiftLeft_of_lt n position hv]
    · rw [dif_neg h, writeByteShape]
      have hm : n % 128 < 128 := Nat.mod_lt _ (by norm_num)
      have hpos : position + 7 < 63 := by
        have h1 : (2 : Nat) ^ 7 ≤ n := by omega
        have h2 : (2 : Nat) ^ 7 < 2 ^ (63 - position) := lt_of_le_of_lt h1 hn
        have h3 : 7 < 63 - position := by
          exact (Nat.pow_lt_pow_iff_right (by norm_num)).mp h2
        omega
      have hsh : n % 128 * 2 ^ position < 2 ^ 64 := by
        calc n % 128 * 2 ^ position < 128 * 2 ^ position :=
              mul_lt_mul_of_pos_right hm (Nat.two_pow_pos position)
          _ = 2 ^ position * 128 := by ring
          _ = 2 ^ (position + 7) := by rw [Nat.pow_add]
          _ < 2 ^ 64 := (Nat.pow_lt_pow_iff_right (by norm_num)).mpr (by omega)
      simp only [ReadVarLongLoop, segmentBits, continueBit]
      rw [and127_eq_mod, Nat.add_mod_right, Nat.mod_mod_of_dvd n (dvd_refl 128),
        Nat.mod_eq_of_lt (show (n % 128) <<< position < 2 ^ 64 from by
          rw [Nat.shiftLeft_eq]; exact hsh)]
      rw [if_neg (by rw [add128_and128 hm]; norm_num)]
      rw [if_neg (by omega : ¬ position + 7 ≥ 64)]
      rw [lor_shiftLeft_of_lt (n % 128) position hv]
      have hv2 : 2 ^ position * (n % 128) + value < 2 ^ (position + 7) := by
        calc 2 ^ position * (n % 128) + value
            < 2 ^ position * (n % 128) + 2 ^ position := by omega
          _ ≤ 2 ^ position * 127 + 2 ^ position := by
              exact Nat.add_le_add_right (Nat.mul_le_mul_left _ (by omega)) _
          _ = 2 ^ position * 128 := by ring
          _ = 2 ^ (position + 7) := by rw [Nat.pow_add]
      have hn2 : n >>> 7 < 2 ^ (63 - (position + 7)) := by
        rw [shiftRight7_eq]
        have e : (2 : Nat) ^ (63 - position) = 2 ^ (63 - (position + 7)) * 128 := by
          rw [show (128 : Nat) = 2 ^ 7 from by norm_num, ← Nat.pow_add]
          congr 1
          omega
        rw [Nat.div_lt_iff_lt_mul (by norm_num : (0 : Nat) < 128)]
        rw [← e]
        exact hn
      have hrec := ih (n >>> 7) (by rw [shiftRight7_eq]; exact Nat.div_lt_self (by omega) (by norm_num))
        (position + 7) (2 ^ position * (n % 128) + value) hv2 hn2
      rw [hrec]
      congr 1
      have dm := Nat.div_add_mod n 128
      rw [shiftRight7_eq]
      calc 2 ^ (position + 7) * (n / 128) + (2 ^ position * (n % 128) + value)
          = 2 ^ position * (128 * (n / 128) + n % 128) + value := by
            rw [Nat.pow_add]; ring
        _ = 2 ^ position * n + value := by rw [dm]

/-- C7: for every non-negative n below 2^31, ReadVarInt decodes the bytes
produced by WriteVarInt(n) back to n; likewise for every non-negative
m below 2^63, ReadVarLong decodes the output of WriteVarLong(m) to m. -/
theorem c7_varint_roundtrip (n m : Nat) (hn : n < 2 ^ 31) (hm : m < 2 ^ 63) :
    ReadVarInt (WriteVarInt n) = .ok n ∧ ReadVarLong (WriteVarLong m) = .ok (m : Int) := by
  constructor
  · have h := ReadVarIntLoop_WriteVarInt n 0 0 (by norm_num) (by simpa using hn)
    rw [ReadVarInt, h]
    norm_num
  · have h := ReadVarLongLoop_WriteVarLong m 0 0 (by norm_num) (by simpa using hm)
    norm_num at h
    have e : toInt64 m = (m : Int) := by
      rw [toInt64, Nat.mod_eq_of_lt (lt_trans hm (by norm_num)), if_pos hm]
    rw [ReadVarLong, h]
    show Except.ok (toInt64 m) = Except.ok (m : Int)
    rw [e]

/-- Witness for C7 at n = 300 and m = 2^62 + 5. -/
theorem c7_varint_roundtrip_witness :
    300 < 2 ^ 31 ∧ 4611686018427387909 < 2 ^ 63 ∧
    ReadVarInt (WriteVarInt 300) = .ok 300 ∧
    ReadVarLong (WriteVarLong 4611686018427387909) = .ok (4611686018427387909 : Int) :=
  ⟨by norm_num, by norm_num,
    (c7_varint_roundtrip 300 4611686018427387909 (by norm_num) (by norm_num)).1,
    (c7_varint_roundtrip 300 4611686018427387909 (by norm_num) (by norm_num)).2⟩

/-- A byte run that never clears the continue bit stalls the framing-engine
VarInt size decoder: it reports not-extracted whether the run is short
(incomplete varint) or long (overlong varint hitting the width guard). -/
theorem readVarIntPacketSizeLoop_allContinue (l : List Nat) :
    ∀ i position value : Nat, (∀ b ∈ l, b &&& continueBit ≠ 0) →
    readVarIntPacketSizeLoop l i position value = (0, 0, false) := by
  induction l with
  | nil => intro i position value _; rfl
  | cons b rest ih =>
    intro i position value h
    have hb : b &&& continueBit ≠ 0 := h b (by simp)
    simp only [readVarIntPacketSizeLoop]
    rw [if_neg hb]
    by_cases hp : position + 7 ≥ 32
    · rw [if_pos hp]
    · rw [if_neg hp]
      exact ih _ _ _ (fun x hx => h x (by simp [hx]))

/-- The VarLong analog of readVarIntPacketSizeLoop_allContinue. -/
theorem readVarLongPacketSizeLoop_allContinue (l : List Nat) :
    ∀ i position value : Nat, (∀ b ∈ l, b &&& continueBit ≠ 0) →
    readVarLongPacketSizeLoop l i position value = (0, 0, false) := by
  induction l with
  | nil => intro i position value _; rfl
  | cons b rest ih =>
    intro i position value h
    have hb : b &&& continueBit ≠ 0 := h b (by simp)
    simp only [readVarLongPacketSizeLoop]
    rw [if_neg hb]
    by_cases hp : position + 7 ≥ 64
    · rw [if_pos hp]
    · rw [if_neg hp]
      exact ih _ _ _ (fun x hx => h x (by simp [hx]))

/-- C8: a varint whose decoded width would exceed 32 bits (five continue
bytes; 64 bits and ten continue bytes for VarLong) makes the framing-engine
size decoders readVarIntPacketSize/readVarLongPacketSize return
not-extracted, exactly as they do for an incomplete varint, whereas the
standalone decoders ReadVarInt/ReadVarLong return the explicit
invalid-size error. -/
theorem c8_varint_decode_failures
    (b0 b1 b2 b3 b4 : Nat) (tail : List Nat)
    (hb0 : b0 &&& continueBit ≠ 0) (hb1 : b1 &&& continueBit ≠ 0)
    (hb2 : b2 &&& continueBit ≠ 0) (hb3 : b3 &&& continueBit ≠ 0)
    (hb4 : b4 &&& continueBit ≠ 0)
    (d0 d1 d2 d3 d4 d5 d6 d7 d8 d9 : Nat) (tail2 : List Nat)
    (hd0 : d0 &&& continueBit ≠ 0) (hd1 : d1 &&& continueBit ≠ 0)
    (hd2 : d2 &&& continueBit ≠ 0) (hd3 : d3 &&& continueBit ≠ 0)
    (hd4 : d4 &&& continueBit ≠ 0) (hd5 : d5 &&& continueBit ≠ 0)
    (hd6 : d6 &&& continueBit ≠ 0) (hd7 : d7 &&& continueBit ≠ 0)
    (hd8 : d8 &&& continueBit ≠ 0) (hd9 : d9 &&& continueBit ≠ 0)
    (ds es : List Nat)
    (hds : ∀ b ∈ ds, b &&& continueBit ≠ 0) (hes : ∀ b ∈ es, b &&& continueBit ≠ 0) :
    readVarIntPacketSize (b0 :: b1 :: b2 :: b3 :: b4 :: tail) = (0, 0, false) ∧
    ReadVarInt (b0 :: b1 :: b2 :: b3 :: b4 :: tail) = .error .invalidSize ∧
    readVarLongPacketSize
        (d0 :: d1 :: d2 :: d3 :: d4 :: d5 :: d6 :: d7 :: d8 :: d9 :: tail2) = (0, 0, false) ∧
    ReadVarLong
        (d0 :: d1 :: d2 :: d3 :: d4 :: d5 :: d6 :: d7 :: d8 :: d9 :: tail2) = .error .invalidSize ∧
    readVarIntPacketSize ds = (0, 0, false) ∧
    readVarLongPacketSize es = (0, 0, false) := by
  refine ⟨?_, ?_, ?_, ?_, ?_, ?_⟩
  · simp [readVarIntPacketSize, readVarIntPacketSizeLoop, hb0, hb1, hb2, hb3, hb4]
  · simp [ReadVarInt, ReadVarIntLoop, hb0, hb1, hb2, hb3, hb4]
  · simp [readVarLongPacketSize, readVarLongPacketSizeLoop,
      hd0, hd1, hd2, hd3, hd4, hd5, hd6, hd7, hd8, hd9]
  · simp [ReadVarLong, ReadVarLongLoop,
      hd0, hd1, hd2, hd3, hd4, hd5, hd6, hd7, hd8, hd9, Except.map]
  · exact readVarIntPacketSizeLoop_allContinue ds 0 0 0 hds
  · exact readVarLongPacketSizeLoop_allContinue es 0 0 0 hes

/-- Witness for C8 at the fully concrete inputs [0x80 x5, 5],
[0x80 x10, 5], and the incomplete run [0x80]. -/
theorem c8_varint_decode_failures_witness :
    readVarIntPacketSize [128, 128, 128, 128, 128, 5] = (0, 0, false) ∧
    ReadVarInt [128, 128, 128, 128, 128, 5] = .error .invalidSize ∧
    readVarLongPacketSize
        [128, 128, 128, 128, 128, 128, 128, 128, 128, 128, 5] = (0, 0, false) ∧
    ReadVarLong
        [128, 128, 128, 128, 128, 128, 128, 128, 128, 128, 5] = .error .invalidSize ∧
    readVarIntPacketSize [128] = (0, 0, false) ∧
    readVarLongPacketSize [128] = (0, 0, false) :=
  c8_varint_decode_failures 128 128 128 128 128 [5]
    (by decide) (by decide) (by decide) (by decide) (by decide)
    128 128 128 128 128 128 128 128 128 128 [5]
    (by decide) (by decide) (by decide) (by decide) (by decide)
    (by decide) (by decide) (by decide) (by decide) (by decide)
    [128] [128] (by decide) (by decide)

/-- Once the close-once guard has fired, further Close calls leave the
socket state untouched. -/
theorem socketClose_foldl_done (calls : List (Option CloseReason)) :
    ∀ s : SocketModel, s.closeOnceDone = true → calls.foldl socketClose s = s := by
  induction calls with
  | nil => intro s _; rfl
  | cons c rest ih =>
    intro s h
    have e : socketClose s c = s := by rw [socketClose, if_pos h]
    rw [List.foldl_cons, e]
    exact ih s h

/-- The first Close call on a fresh socket closes the connection once and
fires the handlers in reverse registration order with its reason. -/
theorem socketClose_first (handlers : List Nat) (r : Option CloseReason) :
    socketClose (initialSocketModel handlers) r =
      { closeHandlers := handlers, closeOnceDone := true, connCloseCount := 1,
        firedHandlers := handlers.reverse.map (fun h => (h, r.getD .CloseReasonServer)) } := by
  rw [socketClose]
  rw [if_neg (by rw [initialSocketModel]; simp)]
  rfl

/-- C9: for every sequence of Close calls with any mix of reasons, the
underlying connection is closed at most once (exactly once when at least one
call happens), and the registered close handlers run exactly once in total,
in reverse registration order, receiving the reason of the first call
(CloseReasonServer when that call passes no reason). -/
theorem c9_close_idempotent (handlers : List Nat) (firstReason : Option CloseReason)
    (calls : List (Option CloseReason)) :
    (calls.foldl socketClose (initialSocketModel handlers)).connCloseCount ≤ 1 ∧
    ((firstReason :: calls).foldl socketClose (initialSocketModel handlers)).connCloseCount = 1 ∧
    ((firstReason :: calls).foldl socketClose (initialSocketModel handlers)).firedHandlers =
      handlers.reverse.map (fun h => (h, firstReason.getD .CloseReasonServer)) := by
  refine ⟨?_, ?_, ?_⟩
  · cases calls with
    | nil =>
      rw [List.foldl_nil, initialSocketModel]
      exact Nat.zero_le 1
    | cons c rest =>
      rw [List.foldl_cons, socketClose_first handlers c, socketClose_foldl_done rest _ rfl]
  · rw [List.foldl_cons, socketClose_first handlers firstReason,
      socketClose_foldl_done calls _ rfl]
  · rw [List.foldl_cons, socketClose_first handlers firstReason,
      socketClose_foldl_done calls _ rfl]

/-- C10: with a non-negative max size already reached, socketsList.New
closes the connection, recycles the pooled Socket, returns nil and leaves
the list untouched; below the limit, or with a negative (unlimited) max
size, it appends the Socket at the tail, bumps the size by one and returns
the Socket. -/
theorem c10_sockets_list_new (s : SocketsListModel) (socket : Nat) :
    (s.maxSize ≥ 0 → (s.size : Int) ≥ s.maxSize →
      socketsListNew s socket =
        { returned := none, state := s, connectionClosed := true, socketRecycled := true }) ∧
    (s.maxSize < 0 ∨ (s.size : Int) < s.maxSize →
      socketsListNew s socket =
        { returned := some socket,
          state := { s with sockets := s.sockets ++ [socket], size := s.size + 1 },
          connectionClosed := false, socketRecycled := false }) := by
  constructor
  · intro h1 h2
    simp [socketsListNew, registerSocket, h1, h2]
  · intro h
    have hc : ¬(s.maxSize ≥ 0 ∧ (s.size : Int) ≥ s.maxSize) := by
      rcases h with h | h
      · intro hand
        omega
      · intro hand
        omega
    simp [socketsListNew, registerSocket, hc]

/-- Witness for C10: a full list (maxSize 1, size 1) rejects, an unlimited
list (maxSize -1) appends. -/
theorem c10_sockets_list_new_witness :
    socketsListNew { sockets := [7], size := 1, maxSize := 1 } 9 =
      { returned := none, state := { sockets := [7], size := 1, maxSize := 1 },
        connectionClosed := true, socketRecycled := true } ∧
    socketsListNew { sockets := [], size := 0, maxSize := -1 } 3 =
      { returned := some 3, state := { sockets := [3], size := 1, maxSize := -1 },
        connectionClosed := false, socketRecycled := false } := by
  constructor
  · exact (c10_sockets_list_new { sockets := [7], size := 1, maxSize := 1 } 9).1
      (by norm_num) (by norm_num)
  · have h := (c10_sockets_list_new { sockets := [], size := 0, maxSize := -1 } 3).2
      (Or.inl (by norm_num))
    simpa using h

/-- The merged MaxPacketSize honours only strictly positive provided values
and otherwise keeps the 16 KiB default. -/
theorem mergeMaxPacketSize (p : PacketFramingConfig) :
    (mergePacketFramingConfig (some p)).MaxPacketSize =
      if p.MaxPacketSize > 0 then p.MaxPacketSize else 16384 := by
  simp only [mergePacketFramingConfig]
  split_ifs <;> rfl

/-- C5 counterexample: merging a config with MaxPacketSize = 0 keeps the
default cap of 16384 rather than disabling the cap, and the engine's
size-cap guard is active for the merged value (an in-flight count of 16385
is discarded). -/
theorem c5_counterexample :
    (mergePacketFramingConfig
        (some { ReadBufferSize := 0, MaxPacketSize := 0, MinReadSpace := 0 })).MaxPacketSize
      = 16384 ∧
    packetSizeExceeded
        (mergePacketFramingConfig
          (some { ReadBufferSize := 0, MaxPacketSize := 0, MinReadSpace := 0 })).MaxPacketSize
        16385 = true := by
  constructor
  · rw [mergeMaxPacketSize]
    rfl
  · rw [packetSizeExceeded, mergeMaxPacketSize]
    rfl

/-- C5 (amended): a non-positive MaxPacketSize (zero included) in the
provided config is replaced by the 16384 default, and the merged
MaxPacketSize is always positive, so the engine's size cap can never be
disabled through the configuration. -/
theorem c5_merge_always_caps (provided : Option PacketFramingConfig)
    (q : PacketFramingConfig) (hq : q.MaxPacketSize ≤ 0) :
    0 < (mergePacketFramingConfig provided).MaxPacketSize ∧
    (mergePacketFramingConfig (some q)).MaxPacketSize = 16384 := by
  constructor
  · cases provided with
    | none => norm_num [mergePacketFramingConfig]
    | some p =>
      rw [mergeMaxPacketSize]
      split_ifs with h
      · omega
      · norm_num
  · rw [mergeMaxPacketSize, if_neg (by omega)]

/-- Witness for C5 at a config that sets MaxPacketSize to 0. -/
theorem c5_merge_always_caps_witness :
    0 < (mergePacketFramingConfig
        (some { ReadBufferSize := 16, MaxPacketSize := 0, MinReadSpace := 4 })).MaxPacketSize ∧
    (mergePacketFramingConfig
        (some { ReadBufferSize := 16, MaxPacketSize := 0, MinReadSpace := 4 })).MaxPacketSize
      = 16384 :=
  c5_merge_always_caps _ { ReadBufferSize := 16, MaxPacketSize := 0, MinReadSpace := 4 }
    (by norm_num)

/-- List.isPrefixOf agrees with existence of a completing tail. -/
theorem isPrefixOfExists : ∀ sep s : List Nat, sep.isPrefixOf s = true ↔ ∃ t, s = sep ++ t := by
  intro sep
  induction sep with
  | nil =>
    intro s
    simp [List.isPrefixOf]
  | cons a as ih =>
    intro s
    cases s with
    | nil => simp [List.isPrefixOf]
    | cons b bs =>
      simp only [List.isPrefixOf, Bool.and_eq_true, beq_iff_eq, ih bs, List.cons_append,
        List.cons.injEq]
      constructor
      · rintro ⟨rfl, t, rfl⟩
        exact ⟨t, rfl, rfl⟩
      · rintro ⟨t, rfl, rfl⟩
        exact ⟨rfl, t, rfl⟩

/-- A hit of the modelled bytes.Index is the first occurrence: the separator
completes the suffix at the reported position, and at no earlier one. -/
theorem bytesIndexOf_some (sep : List Nat) :
    ∀ (s : List Nat) (p : Nat), bytesIndexOf sep s = some p →
      (∃ t, s.drop p = sep ++ t) ∧ ∀ j, j < p → ¬ ∃ t, s.drop j = sep ++ t := by
  intro s
  induction s with
  | nil =>
    intro p h
    by_cases hp : sep.isPrefixOf ([] : List Nat)
    · rw [bytesIndexOf, if_pos hp] at h
      have hp0 : p = 0 := by
        injection h with h2
        omega
      subst hp0
      exact ⟨(isPrefixOfExists sep []).mp hp, fun j hj => by omega⟩
    · rw [bytesIndexOf, if_neg hp] at h
      exact absurd h (by simp)
  | cons b bs ih =>
    intro p h
    rw [bytesIndexOf] at h
    by_cases hp : sep.isPrefixOf (b :: bs)
    · rw [if_pos hp] at h
      have hp0 : p = 0 := by
        injection h with h2
        omega
      subst hp0
      exact ⟨(isPrefixOfExists sep (b :: bs)).mp hp, fun j hj => by omega⟩
    · rw [if_neg hp] at h
      cases e : bytesIndexOf sep bs with
      | none =>
        rw [e] at h
        exact absurd h (by simp)
      | some q =>
        rw [e] at h
        have hq : p = q + 1 := by
          simp at h
          omega
        subst hq
        obtain ⟨h1, h2⟩ := ih q e
        refine ⟨by simpa using h1, fun j hj => ?_⟩
        cases j with
        | zero =>
          intro hex
          exact hp ((isPrefixOfExists sep (b :: bs)).mpr (by simpa using hex))
        | succ j2 =>
          intro hex
          exact h2 j2 (by omega) (by simpa using hex)

/-- A miss of the modelled bytes.Index means the separator completes no
suffix at all. -/
theorem bytesIndexOf_none (sep : List Nat) :
    ∀ s : List Nat, bytesIndexOf sep s = none → ∀ j, ¬ ∃ t, s.drop j = sep ++ t := by
  intro s
  induction s with
  | nil =>
    intro h j hex
    by_cases hp : sep.isPrefixOf ([] : List Nat)
    · rw [bytesIndexOf, if_pos hp] at h
      exact absurd h (by simp)
    · exact hp ((isPrefixOfExists sep []).mpr (by simpa using hex))
  | cons b bs ih =>
    intro h j hex
    rw [bytesIndexOf] at h
    by_cases hp : sep.isPrefixOf (b :: bs)
    · rw [if_pos hp] at h
      exact absurd h (by simp)
    · rw [if_neg hp] at h
      cases e : bytesIndexOf sep bs with
      | some q =>
        rw [e] at h
        exact absurd h (by simp)
      | none =>
        cases j with
        | zero =>
          exact hp ((isPrefixOfExists sep (b :: bs)).mpr (by simpa using hex))
        | succ j2 =>
          exact ih e j2 (by simpa using hex)

/-- C2 counterexample: with separator 0x0A absent from the buffer
[0x41, 0x42], the separator protocol returns (buf, nil, false) — the whole
input in the packet component and an empty rest — not (empty, buf, false)
as claimed. -/
theorem c2_counterexample :
    separatorExtractPacket [10] [65, 66] = ([65, 66], [], false) ∧
    (([65, 66], ([] : List Nat), false) : List Nat × List Nat × Bool) ≠
      (([] : List Nat), [65, 66], false) := by
  constructor
  · rfl
  · decide

/-- C2 (amended): for a non-empty separator S, when S first occurs at
position p the protocol returns (buf[..p], buf[p+|S|..], true); when S does
not occur anywhere it returns (buf, nil, false) — the Go bytes.Cut
convention, with the unconsumed input in the first component. -/
theorem c2_separator_extract (sep buf : List Nat) (hsep : sep ≠ []) :
    (∀ p : Nat, (∃ t, buf.drop p = sep ++ t) →
        (∀ j, j < p → ¬ ∃ t, buf.drop j = sep ++ t) →
        separatorExtractPacket sep buf = (buf.take p, buf.drop (p + sep.length), true)) ∧
    ((∀ j, ¬ ∃ t, buf.drop j = sep ++ t) →
        separatorExtractPacket sep buf = (buf, [], false)) := by
  constructor
  · intro p hex hmin
    cases e : bytesIndexOf sep buf with
    | none => exact absurd hex (bytesIndexOf_none sep buf e p)
    | some q =>
      obtain ⟨h1, h2⟩ := bytesIndexOf_some sep buf q e
      have hqp : q = p := by
        rcases Nat.lt_trichotomy q p with hlt | heq | hgt
        · exact absurd h1 (hmin q hlt)
        · exact heq
        · exact absurd hex (h2 p hgt)
      subst hqp
      rw [separatorExtractPacket, bytesCut, e]
  · intro hall
    cases e : bytesIndexOf sep buf with
    | some q =>
      obtain ⟨h1, _⟩ := bytesIndexOf_some sep buf q e
      exact absurd h1 (hall q)
    | none => rw [separatorExtractPacket, bytesCut, e]

/-- Witness for C2: separator 0x0A inside [0x41, 0x0A, 0x42] splits at
position 1. -/
theorem c2_separator_extract_witness :
    separatorExtractPacket [10] [65, 10, 66] = ([65], [66], true) := by
  have h := (c2_separator_extract [10] [65, 10, 66] (by simp)).1 1 ⟨[66], rfl⟩
    (by
      intro j hj hex
      obtain ⟨t, ht⟩ := hex
      interval_cases j
      simp at ht)
  simpa using h

/-- Case analysis on the final comparison-and-slice step of the
length-prefixed extractor: successful slice for a fitting non-negative
size, stall for an oversized one, panic for a negative one. -/
theorem lengthPrefixedFinish_spec (buffer : List Nat) (pl : Nat) (N : Int)
    (hpl : pl ≤ buffer.length) :
    (0 ≤ N →
      (N ≤ (buffer.length : Int) - pl →
        lengthPrefixedFinish buffer pl N =
          some ((buffer.drop pl).take N.toNat, buffer.drop (pl + N.toNat), true)) ∧
      ((buffer.length : Int) - pl < N →
        lengthPrefixedFinish buffer pl N = some ([], buffer, false))) ∧
    (N < 0 → lengthPrefixedFinish buffer pl N = none) := by
  refine ⟨fun hN => ⟨fun hle => ?_, fun hgt => ?_⟩, fun hneg => ?_⟩
  · have hg : ((buffer.length - pl : Nat) : Int) ≥ N := by
      rw [Nat.cast_sub hpl]
      omega
    rw [lengthPrefixedFinish, if_pos hg, if_neg (by omega : ¬ N < 0)]
    have e : (buffer.drop pl).drop N.toNat = buffer.drop (pl + N.toNat) := by
      rw [List.drop_drop, Nat.add_comm]
    rw [e]
  · have hg : ¬ ((buffer.length - pl : Nat) : Int) ≥ N := by
      rw [Nat.cast_sub hpl]
      omega
    rw [lengthPrefixedFinish, if_neg hg]
  · have hg : ((buffer.length - pl : Nat) : Int) ≥ N := by omega
    rw [lengthPrefixedFinish, if_pos hg, if_pos hneg]

/-- With a non-negative decoded size the final step never panics. -/
theorem lengthPrefixedFinish_ne_none (buffer : List Nat) (pl : Nat) (N : Int)
    (hN : 0 ≤ N) : lengthPrefixedFinish buffer pl N ≠ none := by
  rw [lengthPrefixedFinish]
  split_ifs with h1 h2
  · omega
  · simp
  · simp

/-- Every size the framing-engine VarInt decoder can report is
non-negative: the Go accumulator is a natural number cast to int64. -/
theorem readVarIntPacketSizeLoop_nonneg (l : List Nat) :
    ∀ i position value : Nat, 0 ≤ (readVarIntPacketSizeLoop l i position value).2.1 := by
  induction l with
  | nil => intro i position value; norm_num [readVarIntPacketSizeLoop]
  | cons b rest ih =>
    intro i position value
    simp only [readVarIntPacketSizeLoop]
    split_ifs
    · positivity
    · norm_num
    · exact ih _ _ _

/-- C3 counterexample: a little-endian Int64 prefix with the sign bit set
decodes to the negative size -2^63; the claim then demands an extracted
triple, but the Go code panics on the negative slice bound (modelled as
none: no triple is returned at all). -/
theorem c3_counterexample :
    lengthPrefixedExtractPacket .PrefixInt64_LE [0, 0, 0, 0, 0, 0, 0, 128] = none ∧
    fixedPrefixValue .PrefixInt64_LE [0, 0, 0, 0, 0, 0, 0, 128] = -(2 ^ 63) := by
  constructor
  · rfl
  · decide

/-- C3 (amended): for the fixed-width prefix kinds, a buffer shorter than
the prefix width is not extracted and returned unchanged; otherwise, with N
the decoded signed prefix value: when 0 ≤ N ≤ |buf| - P the packet
buf[P..P+N] is extracted with rest buf[P+N..]; when N exceeds the available
bytes the buffer is returned unchanged as not extracted; and when N is
negative (possible only for the Int64 kinds, via the sign bit) the function
panics on the negative slice bound instead of returning. -/
theorem c3_fixed_width_extract (t : PrefixType) (buf : List Nat)
    (ht : t = .PrefixInt16_BE ∨ t = .PrefixInt16_LE ∨ t = .PrefixInt32_BE ∨
          t = .PrefixInt32_LE ∨ t = .PrefixInt64_BE ∨ t = .PrefixInt64_LE) :
    (buf.length < prefixLengthOf t →
      lengthPrefixedExtractPacket t buf = some ([], buf, false)) ∧
    (prefixLengthOf t ≤ buf.length →
      (0 ≤ fixedPrefixValue t buf →
        (fixedPrefixValue t buf ≤ (buf.length : Int) - prefixLengthOf t →
          lengthPrefixedExtractPacket t buf =
            some ((buf.drop (prefixLengthOf t)).take (fixedPrefixValue t buf).toNat,
                  buf.drop (prefixLengthOf t + (fixedPrefixValue t buf).toNat), true)) ∧
        ((buf.length : Int) - prefixLengthOf t < fixedPrefixValue t buf →
          lengthPrefixedExtractPacket t buf = some ([], buf, false))) ∧
      (fixedPrefixValue t buf < 0 → lengthPrefixedExtractPacket t buf = none)) := by
  rcases ht with rfl | rfl | rfl | rfl | rfl | rfl <;>
    refine ⟨fun hlt => ?_, fun hge => ?_⟩ <;>
    first
      | rw [lengthPrefixedExtractPacket, if_neg (Nat.not_le.mpr hlt)]
      | (rw [lengthPrefixedExtractPacket, if_pos hge]
         exact lengthPrefixedFinish_spec buf _ _ hge)
  all_goals (intro he; exact PrefixType.noConfusion he)

/-- Witness for C3: a big-endian Int16 prefix of 3 on a 6-byte buffer. -/
theorem c3_fixed_width_extract_witness :
    lengthPrefixedExtractPacket .PrefixInt16_BE [0, 3, 1, 2, 3, 99] =
      some ([1, 2, 3], [99], true) := by
  have h := (((c3_fixed_width_extract .PrefixInt16_BE [0, 3, 1, 2, 3, 99]
    (Or.inl rfl)).2 (by decide)).1 (by decide)).1 (by decide)
  rw [h]
  decide

/-- C4 counterexample: with an Int64-BE prefix of eight 0xFF bytes the
decoded size is -1; the length check |buf| - P ≥ -1 passes and the Go
slice expression buffer[:-1] panics, so ExtractPacket is not total. -/
theorem c4_counterexample :
    lengthPrefixedExtractPacket .PrefixInt64_BE
        [255, 255, 255, 255, 255, 255, 255, 255] = none ∧
    fixedPrefixValue .PrefixInt64_BE [255, 255, 255, 255, 255, 255, 255, 255] = -1 := by
  constructor
  · rfl
  · decide

/-- The final comparison-and-slice step panics exactly on a negative
decoded size: a negative size always passes the length comparison (the
remaining length is a non-negative int64), and a non-negative one reaches
a returning branch whichever way the comparison goes. -/
theorem lengthPrefixedFinish_eq_none_iff (buffer : List Nat) (pl : Nat) (N : Int) :
    lengthPrefixedFinish buffer pl N = none ↔ N < 0 := by
  rw [lengthPrefixedFinish]
  split_ifs with h1 h2
  · simp [h2]
  · simp [h2]
  · have hc : (0 : Int) ≤ ((buffer.length - pl : Nat) : Int) := Int.natCast_nonneg _
    simp only [reduceCtorEq, false_iff]
    omega

/-- C4 (amended): lengthPrefixedFramingProtocol.ExtractPacket always
returns a triple except when the decoded packet length is negative, which
only the Int64_BE, Int64_LE and VarLong prefix kinds can produce; for the
VarInt, Int16 and Int32 kinds it is total on every buffer, and for the
Int64 and VarLong kinds it fails to return (the Go slice expression
panics) precisely when the prefix decodes to a negative length. -/
theorem c4_extract_totality (t : PrefixType) (buf : List Nat) :
    (lengthPrefixedExtractPacket t buf = none →
      t = .PrefixInt64_BE ∨ t = .PrefixInt64_LE ∨ t = .PrefixVarLong) ∧
    ((t = .PrefixVarInt ∨ t = .PrefixInt16_BE ∨ t = .PrefixInt16_LE ∨
      t = .PrefixInt32_BE ∨ t = .PrefixInt32_LE) →
      lengthPrefixedExtractPacket t buf ≠ none) ∧
    ((t = .PrefixInt64_BE ∨ t = .PrefixInt64_LE) →
      (lengthPrefixedExtractPacket t buf = none ↔
        prefixLengthOf t ≤ buf.length ∧ fixedPrefixValue t buf < 0)) ∧
    (lengthPrefixedExtractPacket .PrefixVarLong buf = none ↔
      ∃ pl sz, readVarLongPacketSize buf = (pl, sz, true) ∧ sz < 0) := by
  have varintSafe : lengthPrefixedExtractPacket .PrefixVarInt buf ≠ none := by
    rw [lengthPrefixedExtractPacket]
    split_ifs with hg
    · have hnn := readVarIntPacketSizeLoop_nonneg buf 0 0 0
      rcases e : readVarIntPacketSize buf with ⟨pl, sz, b⟩
      rw [readVarIntPacketSize] at e
      rw [e] at hnn
      cases b
      · simp [readVarIntPacketSize, e]
      · simp only [readVarIntPacketSize, e]
        exact lengthPrefixedFinish_ne_none buf pl sz hnn
    · simp
  have fixedSafe : ∀ t2 : PrefixType,
      t2 = .PrefixInt16_BE ∨ t2 = .PrefixInt16_LE ∨
      t2 = .PrefixInt32_BE ∨ t2 = .PrefixInt32_LE →
      lengthPrefixedExtractPacket t2 buf ≠ none := by
    intro t2 ht2
    rcases ht2 with rfl | rfl | rfl | rfl <;>
      (rw [lengthPrefixedExtractPacket]
       split_ifs with hg
       · exact lengthPrefixedFinish_ne_none buf _ _ (Int.natCast_nonneg _)
       · simp)
    all_goals (intro he; exact PrefixType.noConfusion he)
  have int64Iff : ∀ t2 : PrefixType, t2 = .PrefixInt64_BE ∨ t2 = .PrefixInt64_LE →
      (lengthPrefixedExtractPacket t2 buf = none ↔
        prefixLengthOf t2 ≤ buf.length ∧ fixedPrefixValue t2 buf < 0) := by
    intro t2 ht2
    rcases ht2 with rfl | rfl <;>
      (rw [lengthPrefixedExtractPacket]
       split_ifs with hg
       · rw [lengthPrefixedFinish_eq_none_iff]
         constructor
         · intro hneg
           exact ⟨hg, hneg⟩
         · intro hand
           exact hand.2
       · constructor
         · intro habs
           exact absurd habs (by simp)
         · intro hand
           exact absurd hand.1 hg)
    all_goals (intro he; exact PrefixType.noConfusion he)
  have varlongIff : lengthPrefixedExtractPacket .PrefixVarLong buf = none ↔
      ∃ pl sz, readVarLongPacketSize buf = (pl, sz, true) ∧ sz < 0 := by
    rw [lengthPrefixedExtractPacket,
      if_pos (show buf.length ≥ prefixLengthOf .PrefixVarLong from Nat.zero_le _)]
    rcases e : readVarLongPacketSize buf with ⟨pl, sz, b⟩
    cases b
    · simp only [e]
      constructor
      · intro habs
        exact absurd habs (by simp)
      · intro hex
        obtain ⟨pl2, sz2, he, _⟩ := hex
        simp [Prod.ext_iff] at he
    · simp only [e]
      rw [lengthPrefixedFinish_eq_none_iff]
      constructor
      · intro hneg
        exact ⟨pl, sz, rfl, hneg⟩
      · intro hex
        obtain ⟨pl2, sz2, he, hneg⟩ := hex
        simp only [Prod.ext_iff] at he
        omega
  refine ⟨?_, ?_, int64Iff t, varlongIff⟩
  · intro hnone
    cases t with
    | PrefixVarInt => exact absurd hnone varintSafe
    | PrefixVarLong => exact Or.inr (Or.inr rfl)
    | PrefixInt16_BE => exact absurd hnone (fixedSafe _ (Or.inl rfl))
    | PrefixInt16_LE => exact absurd hnone (fixedSafe _ (Or.inr (Or.inl rfl)))
    | PrefixInt32_BE => exact absurd hnone (fixedSafe _ (Or.inr (Or.inr (Or.inl rfl))))
    | PrefixInt32_LE => exact absurd hnone (fixedSafe _ (Or.inr (Or.inr (Or.inr rfl))))
    | PrefixInt64_BE => exact Or.inl rfl
    | PrefixInt64_LE => exact Or.inr (Or.inl rfl)
  · intro h
    rcases h with rfl | rfl | rfl | rfl | rfl
    · exact varintSafe
    · exact fixedSafe _ (Or.inl rfl)
    · exact fixedSafe _ (Or.inr (Or.inl rfl))
    · exact fixedSafe _ (Or.inr (Or.inr (Or.inl rfl)))
    · exact fixedSafe _ (Or.inr (Or.inr (Or.inr rfl)))

/-- Witness for C4: the VarInt kind is total on the one-byte buffer [0];
an Int64-BE prefix decoding to the non-negative 7 on an eight-byte buffer
does not panic (the characterization's negation side); and the VarLong
characterization instantiated on a buffer decoding to the negative size
-1 (nine continue bytes of 0x7F septets closed at position 63). -/
theorem c4_extract_totality_witness :
    (lengthPrefixedExtractPacket .PrefixVarInt [0] ≠ none) ∧
    (lengthPrefixedExtractPacket .PrefixInt64_BE [0, 0, 0, 0, 0, 0, 0, 7] = none ↔
      prefixLengthOf .PrefixInt64_BE ≤ ([0, 0, 0, 0, 0, 0, 0, 7] : List Nat).length ∧
      fixedPrefixValue .PrefixInt64_BE [0, 0, 0, 0, 0, 0, 0, 7] < 0) ∧
    (lengthPrefixedExtractPacket .PrefixVarLong
        [255, 255, 255, 255, 255, 255, 255, 255, 255, 1] = none ↔
      ∃ pl sz, readVarLongPacketSize
        [255, 255, 255, 255, 255, 255, 255, 255, 255, 1] = (pl, sz, true) ∧ sz < 0) :=
  ⟨(c4_extract_totality .PrefixVarInt [0]).2.1 (Or.inl rfl),
   (c4_extract_totality .PrefixInt64_BE [0, 0, 0, 0, 0, 0, 0, 7]).2.2.1 (Or.inl rfl),
   (c4_extract_totality .PrefixVarLong
     [255, 255, 255, 255, 255, 255, 255, 255, 255, 1]).2.2.2⟩

/-- Model validation: on read schedules shaped like the repository's own
framing tests (a whole frame per read, or a fragment completed by the next
read, with the drain loop resetting the offsets in between), the engine
model delivers exactly the original frames, mirroring the passing tests. -/
theorem engine_delivers_on_test_like_schedules :
    engineDeliveredPackets
        (mergePacketFramingConfig
          (some { ReadBufferSize := 16, MaxPacketSize := 0, MinReadSpace := 4 }))
        (.splitBySeparator [10]) [[65, 66, 67, 10], [68, 69, 10]] =
      some [[65, 66, 67], [68, 69]] ∧
    engineDeliveredPackets
        (mergePacketFramingConfig
          (some { ReadBufferSize := 16, MaxPacketSize := 0, MinReadSpace := 4 }))
        (.splitBySeparator [10]) [[65, 66], [67, 10], [68, 10]] =
      some [[65, 66, 67], [68]] := by
  refine ⟨by decide, by decide⟩

/-- C1: evaluation of the framing-engine loop at a failing input.  Under
newline framing, the stream [65, 66, 67, 10] is the single well-formed
frame "ABC" followed by the separator, and no frame approaches the packet
cap; yet when the transport delivers it in the three reads [65], [66],
[67, 10], the handler is invoked with the corrupted packet
[65, 66, 0, 67]: after the second in-place fragment keep, rightOffset has
been advanced by len(source) instead of by the newly read byte count, so
the third read lands one byte past the fragment and a stale buffer byte
leaks into the extracted packet.  The claim that the handler receives
exactly the original frames fails on this input. -/
theorem c1_engine_chunking_failure :
    engineDeliveredPackets
        (mergePacketFramingConfig
          (some { ReadBufferSize := 16, MaxPacketSize := 0, MinReadSpace := 4 }))
        (.splitBySeparator [10]) [[65], [66], [67, 10]] = some [[65, 66, 0, 67]] ∧
    [65] ++ [66] ++ [67, 10] = [65, 66, 67] ++ [10] ∧
    some [[65, 66, 0, 67]] ≠ some [[65, 66, 67]] := by
  refine ⟨by decide, rfl, by decide⟩

/-- C6: evaluation of the discard path at a failing input.  With
max_packet_size 8 and newline framing, the oversized first read of ten
bytes is discarded exactly as the claim's first half describes (spill
reset, offsets zeroed, connection kept); but the well-formed frame
[65, 66, 67, 10] whose bytes all arrive after the drop point, in the reads
[65], [66], [67, 10], is not delivered: the handler receives
[65, 66, 65, 67], where the stale byte 65 left over from the discarded
oversized packet leaks in through the same rightOffset slip as in C1. -/
theorem c6_engine_post_discard_failure :
    packetSizeExceeded 8 10 = true ∧
    engineDeliveredPackets
        (mergePacketFramingConfig
          (some { ReadBufferSize := 16, MaxPacketSize := 8, MinReadSpace := 4 }))
        (.splitBySeparator [10])
        [List.replicate 10 65, [65], [66], [67, 10]] = some [[65, 66, 65, 67]] ∧
    [65] ++ [66] ++ [67, 10] = [65, 66, 67] ++ [10] ∧
    some [[65, 66, 65, 67]] ≠ some [[65, 66, 67]] := by
  refine ⟨by decide, by decide, rfl, by decide⟩

end Tinytcp
